import Mathlib

/-!
Verification of the varia-bly/go-sdk client-side cache and transport layer.

The Go source is shallowly embedded: the in-memory LRU+TTL cache
(`cache.go`) becomes a state structure with explicit `now : Int`
timestamps (nanoseconds, like Go's `time.Time`/`time.Duration`);
`interface{}` flag values become the inductive `GoValue`; the SDK error
taxonomy (`errors.go`) becomes `SDKErr` (human-readable message strings,
which no claim depends on, are elided); the HTTP layer's retry loop and
error classification (`client.go`) are embedded with the network modelled
as an oracle from attempt number to outcome.  Go maps are modelled as
association lists; where Go iterates a map in unspecified order the model
fixes a deterministic order and this is noted at the definition.
-/

namespace Variably

/-- Embedding of Go `interface{}` values as they occur in `FlagResult.Value`:
`nil`, `bool`, `string`, numbers (int / float64, the latter modelled as a
rational), and opaque JSON objects. -/
inductive GoValue where
  | vNil
  | vBool (b : Bool)
  | vString (s : String)
  | vInt (n : Int)
  | vFloat (q : ℚ)
  | vJson (s : String)
  deriving DecidableEq, Repr

/-- The SDK error taxonomy from `errors.go`.  Each constructor keeps the
fields that influence control flow (`StatusCode` for `NetworkError`,
`RetryAfter` for `RateLimitError`); message/cause strings are elided.
`genericError` stands for a plain `fmt.Errorf` error such as
"flag not found in response". -/
inductive SDKErr where
  | networkError (statusCode : Int)
  | authenticationError
  | validationError
  | rateLimitError (retryAfter : Int)
  | timeoutError
  | cacheError
  | configError
  | genericError (msg : String)
  deriving DecidableEq, Repr

/-- `IsRetryable` from `errors.go:161-173`: a `NetworkError` is retryable
iff its status is ≥ 500 or equals 429 (`StatusTooManyRequests`) or 408
(`StatusRequestTimeout`); `TimeoutError` and `RateLimitError` are always
retryable; everything else is not. -/
def IsRetryable : SDKErr → Bool
  | .networkError statusCode =>
      (500 ≤ statusCode) || (statusCode == 429) || (statusCode == 408)
  | .timeoutError => true
  | .rateLimitError _ => true
  | _ => false

/-- `FlagResult` from `types.go`; `EvaluatedAt` is a nanosecond timestamp. -/
structure FlagResult where
  key : String
  value : GoValue
  reason : String
  ruleID : String := ""
  variation : String := ""
  error : Option SDKErr := none
  evaluatedAt : Int := 0
  cacheHit : Bool := false
  deriving DecidableEq, Repr

/-- `cacheItem` from `cache.go`; `expiration` is a nanosecond timestamp. -/
structure cacheItem where
  value : FlagResult
  expiration : Int
  deriving DecidableEq, Repr

/-- `MemoryCache` from `cache.go`.  The Go struct keeps a hash map plus a
doubly-linked recency list kept in sync; both are represented here by one
association list `entries` ordered exactly like the Go `lruList`: the head
is the front (most recently used), the last element is the back
(least recently used).  Mutexes are dropped: operations are modelled as
atomic state transformers. -/
structure MemoryCache where
  maxSize : Int
  defaultTTL : Int
  entries : List (String × cacheItem)
  deriving DecidableEq, Repr

/-- `NewMemoryCache` from `cache.go:28-35`. -/
def NewMemoryCache (maxSize : Int) (defaultTTL : Int) : MemoryCache :=
  { maxSize := maxSize, defaultTTL := defaultTTL, entries := [] }

/-- Lookup in the map component (`c.items[key]`). -/
def MemoryCache.lookup (c : MemoryCache) (key : String) : Option cacheItem :=
  (c.entries.find? (fun e => e.1 == key)).map Prod.snd

/-- Removing a key from the entry list (the combined effect of
`c.lruList.Remove` and `delete(c.items, key)`); with the no-duplicate-keys
invariant of a Go map this removes exactly the one entry. -/
def eraseKey (key : String) (l : List (String × cacheItem)) :
    List (String × cacheItem) :=
  l.filter (fun e => e.1 != key)

/-- `MemoryCache.Get` from `cache.go:38-57`: absent key → not found;
expired key (`time.Now().After(expiration)`, i.e. strictly past the
instant) → not found (Go also fires an asynchronous `Delete`, which may or
may not have run yet; the model keeps the entry, which is the
largest-state case); live key → value returned and the entry moved to the
front of the recency list. -/
def MemoryCache.get (c : MemoryCache) (now : Int) (key : String) :
    Option FlagResult × MemoryCache :=
  match c.entries.find? (fun e => e.1 == key) with
  | none => (none, c)
  | some e =>
      if e.2.expiration < now then
        (none, c)
      else
        (some e.2.value, { c with entries := e :: eraseKey key c.entries })

/-- `MemoryCache.evictIfNeeded` from `cache.go:133-143`: while the item
count exceeds `maxSize`, remove the back (least-recently-used) element.
For `maxSize < 0` with a non-empty list the Go loop would spin forever
once the list empties; the model returns the empty list there, and every
theorem about eviction assumes `0 ≤ maxSize`. -/
def evictIfNeeded (maxSize : Int) (l : List (String × cacheItem)) :
    List (String × cacheItem) :=
  if h : maxSize < (l.length : Int) ∧ l ≠ [] then
    evictIfNeeded maxSize l.dropLast
  else l
termination_by l.length
decreasing_by
  simp only [List.length_dropLast]
  exact Nat.sub_lt (List.length_pos.mpr h.2) Nat.one_pos

/-- `MemoryCache.Set` from `cache.go:60-91`: a ttl of 0 resolves to the
default TTL; an existing key is updated in place and moved to the front;
a new key is pushed at the front and then `evictIfNeeded` runs. -/
def MemoryCache.set (c : MemoryCache) (now : Int) (key : String)
    (result : FlagResult) (ttl : Int) : MemoryCache :=
  let ttl' := if ttl == 0 then c.defaultTTL else ttl
  let expiration := now + ttl'
  match c.entries.find? (fun e => e.1 == key) with
  | some _ =>
      { c with entries := (key, ⟨result, expiration⟩) :: eraseKey key c.entries }
  | none =>
      { c with entries := evictIfNeeded c.maxSize ((key, ⟨result, expiration⟩) :: c.entries) }

/-- `MemoryCache.Delete` from `cache.go:94-102`. -/
def MemoryCache.delete (c : MemoryCache) (key : String) : MemoryCache :=
  { c with entries := eraseKey key c.entries }

/-- `MemoryCache.Clear` from `cache.go:105-111`. -/
def MemoryCache.clear (c : MemoryCache) : MemoryCache :=
  { c with entries := [] }

/-- `MemoryCache.Size` from `cache.go:114-118`. -/
def MemoryCache.size (c : MemoryCache) : Int :=
  (c.entries.length : Int)

/-- One client-visible cache operation, with the wall-clock instant at
which it runs where that matters. -/
inductive CacheOp where
  | opSet (key : String) (result : FlagResult) (ttl : Int) (now : Int)
  | opGet (key : String) (now : Int)
  | opDelete (key : String)
  | opClear
  deriving Repr

/-- State transition of a single operation. -/
def applyOp (c : MemoryCache) : CacheOp → MemoryCache
  | .opSet key r ttl now => c.set now key r ttl
  | .opGet key now => (c.get now key).2
  | .opDelete key => c.delete key
  | .opClear => c.clear

/-- Running a sequence of operations. -/
def runOps (c : MemoryCache) (ops : List CacheOp) : MemoryCache :=
  ops.foldl applyOp c

/-- Whether an operation, run in state `c`, touches `key` in the LRU
sense: a `Set` of that key (both the update and the insert path push or
move the entry to the front of the recency list), or a `Get` of that key
that hits (present and unexpired — only then does Go call `MoveToFront`). -/
def touches (c : MemoryCache) (op : CacheOp) (key : String) : Bool :=
  match op with
  | .opSet k _ _ _ => k == key
  | .opGet k now => k == key && ((c.get now k).1).isSome
  | .opDelete _ => false
  | .opClear => false

/-- Index (position in the trace) of the last operation that touches
`key`, or `none` if no operation in the trace touches it.  `i` is the
index of the first operation of the remaining list. -/
def lastTouchAux (c : MemoryCache) (i : Nat) (key : String) :
    List CacheOp → Option Nat
  | [] => none
  | op :: ops =>
      match lastTouchAux (applyOp c op) (i + 1) key ops with
      | some t => some t
      | none => if touches c op key then some i else none

/-- Index of the last touch of `key` in the trace `ops` run from `c0`. -/
def lastTouch (c0 : MemoryCache) (ops : List CacheOp) (key : String) : Option Nat :=
  lastTouchAux c0 0 key ops

/-- A list of cache entries is LRU-ordered for a trace when every entry's
key has been touched and the entries appear in strictly decreasing order
of last-touch index: the head is the most recently used, the last element
the least recently used.  Strictness also shows that ties are impossible:
an insertion counts as the entry's first touch, so among never-read
entries the order is insertion order, oldest at the eviction end. -/
def goodList (c0 : MemoryCache) (ops : List CacheOp)
    (l : List (String × cacheItem)) : Prop :=
  (∀ e ∈ l, (lastTouch c0 ops e.1).isSome = true) ∧
  l.Pairwise (fun e1 e2 => ∀ t1 t2, lastTouch c0 ops e1.1 = some t1 →
    lastTouch c0 ops e2.1 = some t2 → t2 < t1)

/-! ## Transport layer (`client.go`) -/

/-- `APIError` from `client.go`: the parsed body of a non-2xx response. -/
structure APIError where
  code : String
  message : String
  details : String
  deriving DecidableEq, Repr

/-- `HTTPClient.handleHTTPError` from `client.go:324-349`, for the case
where the response body parses as an `APIError` (an unparseable body is
the earlier `return NewNetworkError(...)` branch, not modelled by this
function).  For 429 the server-supplied retry-after is read from
`Details` via `strconv.Atoi`, with fallback 0. -/
def handleHTTPError (statusCode : Int) (apiErr : APIError) : SDKErr :=
  if statusCode == 401 then .authenticationError
  else if statusCode == 400 then .validationError
  else if statusCode == 429 then .rateLimitError ((apiErr.details.toInt?).getD 0)
  else if statusCode == 408 then .timeoutError
  else .networkError statusCode

/-- Inner loop of `HTTPClient.makeRequest` from `client.go:222-261`.  The
network is an `oracle` from attempt number to outcome (`none` = success).
`fuel` counts the remaining loop iterations (`retryAttempts + 1 - attempt`),
`attempt` is the Go loop counter, `lastErr` the accumulator.  The result
pairs the returned error with the number of attempts actually performed.
Backoff sleeps and context cancellation (which only abort the loop early
on an external signal) are not modelled. -/
def mrLoop (oracle : Nat → Option SDKErr) :
    Nat → Nat → Option SDKErr → Option SDKErr × Nat
  | 0, attempt, lastErr => (lastErr, attempt)
  | fuel + 1, attempt, lastErr =>
      match oracle attempt with
      | none => (none, attempt + 1)
      | some e =>
          if IsRetryable e then mrLoop oracle fuel (attempt + 1) (some e)
          else (some e, attempt + 1)

/-- `HTTPClient.makeRequest` from `client.go:222-261`: the Go loop is
`for attempt := 0; attempt <= retryAttempts; attempt++`, so it runs at
most `retryAttempts + 1` iterations; a non-retryable error breaks out, a
success returns immediately, exhaustion returns the last error. -/
def makeRequest (retryAttempts : Nat) (oracle : Nat → Option SDKErr) :
    Option SDKErr × Nat :=
  mrLoop oracle (retryAttempts + 1) 0 none

/-- Truncation of a rational toward zero, the semantics of Go's
`time.Duration(f)` conversion from `float64`. -/
def truncToInt (q : ℚ) : Int :=
  if 0 ≤ q then ⌊q⌋ else ⌈q⌉

/-- Reduction into the signed 64-bit range `[-2^63, 2^63)`: the
wrapping semantics of Go's int64 arithmetic (`time.Duration` is an
int64).  The literals are `2^63` and `2^64`. -/
def wrap64 (n : Int) : Int :=
  (n + 9223372036854775808) % 18446744073709551616 - 9223372036854775808

/-- `HTTPClient.calculateBackoff` from `client.go:352-366`, with the
`rand.Float64()` sample passed in as `r : ℚ` (Go guarantees `0 ≤ r < 1`).
All `time.Duration` products and sums are 64-bit and wrap (`wrap64`):
in particular `base * time.Duration(math.Pow(2, attempt))` is computed
*before* the 30s cap is tested, so for `attempt ≥ 37` the int64 product
overflows and wraps negative, and the cap never fires.  The
float64-to-`Duration` conversion of `math.Pow(2, attempt)` is exact for
`attempt ≤ 62`; past that the float exceeds the int64 range and the Go
spec leaves the conversion result implementation-dependent, so the model
fixes it to the wrapped value and the theorems below stay within the
exactly-modelled domain.  The jitter term mirrors the source exactly:
`time.Duration(r*0.5-0.25) * backoff`, where the inner conversion
truncates the float toward zero *before* the multiplication. -/
def calculateBackoff (attempt : Nat) (r : ℚ) : Int :=
  let base : Int := 100 * 1000000
  let backoff0 : Int := wrap64 (base * wrap64 (2 ^ attempt))
  let backoff : Int := if 30 * 1000000000 < backoff0 then 30 * 1000000000 else backoff0
  let jitter : Int := wrap64 (truncToInt (r * (1 / 2 : ℚ) - (1 / 4 : ℚ)) * backoff)
  wrap64 (backoff + jitter)

/-! ## Evaluator (`evaluator.go`) -/

/-- `Evaluator.generateCacheKey` from `evaluator.go:296-302`. -/
def generateCacheKey (flagKey : String) (userID : String) (environment : String) : String :=
  "flag:" ++ flagKey ++ ":user:" ++ userID ++ ":env:" ++ environment

/-- `Evaluator.evaluateFlagFromAPI` from `evaluator.go:217-242`.  The
network outcome of `httpClient.EvaluateFlag` is passed in as
`resp : Except SDKErr Bool` (`.ok enabled` carries the response's
`Enabled` field, the only field the evaluator reads). -/
def evaluateFlagFromAPI (flagKey : String) (defaultValue : GoValue)
    (resp : Except SDKErr Bool) (now : Int) : FlagResult :=
  match resp with
  | .error e =>
      { key := flagKey, value := defaultValue, reason := "error_fallback",
        error := some e, evaluatedAt := now, cacheHit := false }
  | .ok enabled =>
      { key := flagKey, value := .vBool enabled, reason := "api_evaluation",
        evaluatedAt := now, cacheHit := false }

/-- `Evaluator.EvaluateFlag` from `evaluator.go:30-60`: cache-aside read.
On a hit the cached result is returned with `CacheHit=true`; on a miss the
API result is computed and cached only when `result.Error == nil`
(`ttl = 0` resolves to the configured default TTL through
`CacheManager.Set`, which the embedded `MemoryCache.set` also does). -/
def EvaluateFlag (cache : MemoryCache) (flagKey : String) (defaultValue : GoValue)
    (userID : String) (environment : String) (resp : Except SDKErr Bool) (now : Int) :
    FlagResult × MemoryCache :=
  match cache.get now (generateCacheKey flagKey userID environment) with
  | (some cached, cache') => ({ cached with cacheHit := true }, cache')
  | (none, cache') =>
      if (evaluateFlagFromAPI flagKey defaultValue resp now).error = none then
        (evaluateFlagFromAPI flagKey defaultValue resp now,
          cache'.set now (generateCacheKey flagKey userID environment)
            (evaluateFlagFromAPI flagKey defaultValue resp now) 0)
      else
        (evaluateFlagFromAPI flagKey defaultValue resp now, cache')

/-- First match in an association list, the model of a Go map lookup. -/
def lookupStr {α : Type} (l : List (String × α)) (k : String) : Option α :=
  (l.find? (fun e => e.1 == k)).map Prod.snd

/-- The result record built for a key present in the batch response
(`evaluator.go:267-277`). -/
def mkApiResult (now : Int) (k : String) (b : Bool) : FlagResult :=
  { key := k, value := .vBool b, reason := "api_evaluation",
    evaluatedAt := now, cacheHit := false }

/-- The result record built for a requested key missing from the batch
response (`evaluator.go:280-291`). -/
def mkNotFoundResult (now : Int) (k : String) : FlagResult :=
  { key := k, value := .vNil, reason := "not_found",
    error := some (.genericError "flag not found in response"),
    evaluatedAt := now, cacheHit := false }

/-- `Evaluator.evaluateFlagsFromAPI` from `evaluator.go:245-294`.  The
batch response's `Results` map is the association list `results` (unique
keys, being a JSON object).  On transport failure every requested key gets
an `error_fallback` result with `Value: nil` (the batch path has no
caller-supplied defaults).  On success the `Results` entries are turned
into `api_evaluation` results (Go iterates the map; the model uses the
list order) and every requested key missing from the response is appended
as a `not_found` error entry. -/
def evaluateFlagsFromAPI (flagKeys : List String)
    (resp : Except SDKErr (List (String × Bool))) (now : Int) :
    List (String × FlagResult) :=
  match resp with
  | .error e =>
      flagKeys.map (fun k =>
        (k, { key := k, value := .vNil, reason := "error_fallback",
              error := some e, evaluatedAt := now, cacheHit := false }))
  | .ok results =>
      results.map (fun kr => (kr.1, mkApiResult now kr.1 kr.2)) ++
        (flagKeys.filter (fun k => (lookupStr results k).isNone)).map
          (fun k => (k, mkNotFoundResult now k))

/-- The cache-population loop at the end of `Evaluator.EvaluateFlags`
(`evaluator.go:97-103`): each batch result with `Error == nil` is written
through `cacheManager.Set` with the default TTL; failed results are
skipped.  Go iterates the results map in unspecified order; the model
iterates the list. -/
def cacheBatch (userID : String) (environment : String) (now : Int)
    (cache : MemoryCache) (batch : List (String × FlagResult)) : MemoryCache :=
  batch.foldl (fun c kr =>
    if kr.2.error = none then
      c.set now (generateCacheKey kr.1 userID environment) kr.2 0
    else c) cache

/-- One step of the cache-scan loop of `Evaluator.EvaluateFlags`
(`evaluator.go:72-86`): a hit appends the cached result (marked
`CacheHit=true`), a miss appends the key to the uncached list. -/
def scanStep (userID : String) (environment : String) (now : Int)
    (acc : List (String × FlagResult) × List String × MemoryCache) (k : String) :
    List (String × FlagResult) × List String × MemoryCache :=
  match (acc.2.2).get now (generateCacheKey k userID environment) with
  | (some r, c') => (acc.1 ++ [(k, { r with cacheHit := true })], acc.2.1, c')
  | (none, c') => (acc.1, acc.2.1 ++ [k], c')

/-- `Evaluator.EvaluateFlags` from `evaluator.go:63-106`: scan the cache
per key, return immediately if everything was cached, otherwise issue one
batch call for the uncached keys, merge (a later map write wins, hence the
batch results precede the cached ones in the association list whose first
match models the map lookup) and cache the successful batch entries. -/
def EvaluateFlags (cache : MemoryCache) (flagKeys : List String)
    (userID : String) (environment : String)
    (resp : Except SDKErr (List (String × Bool))) (now : Int) :
    List (String × FlagResult) × MemoryCache :=
  let scanned := flagKeys.foldl (scanStep userID environment now)
    (([] : List (String × FlagResult)), ([] : List String), cache)
  if scanned.2.1 = [] then (scanned.1, scanned.2.2)
  else
    let batch := evaluateFlagsFromAPI scanned.2.1 resp now
    (batch ++ scanned.1, cacheBatch userID environment now scanned.2.2 batch)

/-! ## Typed accessors (`variably.go`) and persistence (`cache.go`) -/

/-- The type-switch of `VariablyClient.EvaluateFlagString`
(`variably.go:116-129`) applied to the `FlagResult` produced by
`EvaluateFlag`: on an error, or on a value that is not a string, the
caller-supplied default is returned. -/
def EvaluateFlagString (r : FlagResult) (defaultValue : String) : String :=
  if r.error.isSome then defaultValue
  else
    match r.value with
    | .vString s => s
    | _ => defaultValue

/-- The type-switch of `VariablyClient.EvaluateFlagInt`
(`variably.go:132-151`): accepts int and float64 values (Go's
`int(float64)` truncates toward zero), otherwise the default. -/
def EvaluateFlagInt (r : FlagResult) (defaultValue : Int) : Int :=
  if r.error.isSome then defaultValue
  else
    match r.value with
    | .vInt n => n
    | .vFloat q => truncToInt q
    | _ => defaultValue

/-- The type-switch of `VariablyClient.EvaluateFlagFloat`
(`variably.go:154-173`): accepts float64 and int values, otherwise the
default. -/
def EvaluateFlagFloat (r : FlagResult) (defaultValue : ℚ) : ℚ :=
  if r.error.isSome then defaultValue
  else
    match r.value with
    | .vFloat q => q
    | .vInt n => (n : ℚ)
    | _ => defaultValue

/-- The effect of Go's JSON marshal/unmarshal round-trip on an
`interface{}` flag value: `json.Unmarshal` decodes every JSON number into
`float64`, so an int value comes back as a float; booleans, strings and
nil round-trip unchanged; a stored float64 re-parses to the same value
(Go emits the shortest representation that reads back exactly); a JSON
object (kept opaque here) decodes to a `map[string]interface{}`, which
the opaque constructor also stands for. -/
def jsonRoundTripValue : GoValue → GoValue
  | .vInt n => .vFloat (n : ℚ)
  | v => v

/-- The effect of the JSON round-trip on a stored `FlagResult`: the
`Error` field is tagged `json:"-"` and is dropped on marshal; the
`Value` field goes through `jsonRoundTripValue`; all other fields
(strings, RFC3339-nanosecond timestamp, bool) round-trip exactly. -/
def jsonRoundTripResult (r : FlagResult) : FlagResult :=
  { key := r.key, value := jsonRoundTripValue r.value, reason := r.reason,
    ruleID := r.ruleID, variation := r.variation, error := none,
    evaluatedAt := r.evaluatedAt, cacheHit := r.cacheHit }

/-- The effect of the JSON round-trip on a snapshot entry: the
`Expiration` timestamp (RFC3339 with nanoseconds) round-trips exactly,
the stored result as above. -/
def jsonRoundTripItem (it : cacheItem) : cacheItem :=
  ⟨jsonRoundTripResult it.value, it.expiration⟩

/-- `PersistentCache.saveToFile` from `cache.go:256-288`, composed with
the decode a later `loadFromFile` performs: the snapshot is the map from
keys to `{value, expiration}` built from the memory cache's items
(`persistentCacheItem` carries the same two fields as `cacheItem`),
written via the atomic temp-file rename.  Keys and the entry set are
reproduced exactly, but each stored result is filtered through
`jsonRoundTripItem`: the `json:"-"` `Error` field is dropped and
`interface{}` int values decode back as float64. -/
def saveToFile (m : MemoryCache) : List (String × cacheItem) :=
  m.entries.map (fun e => (e.1, jsonRoundTripItem e.2))

/-- `PersistentCache.loadFromFile` from `cache.go:229-254`: every
snapshot entry still strictly in the future (`now.Before(expiration)`) is
written into the memory cache with `ttl = time.Until(expiration)`, i.e.
`expiration - now` (strictly positive here, so never remapped to the
default TTL); already-expired entries are dropped. -/
def loadFromFile (m : MemoryCache) (snapshot : List (String × cacheItem))
    (now : Int) : MemoryCache :=
  snapshot.foldl (fun c it =>
    if now < it.2.expiration then
      c.set now it.1 it.2.value (it.2.expiration - now)
    else c) m

/-- `NewPersistentCache` from `cache.go:184-194`: a fresh memory cache
populated from the snapshot file. -/
def NewPersistentCache (maxSize : Int) (defaultTTL : Int)
    (snapshot : List (String × cacheItem)) (now : Int) : MemoryCache :=
  loadFromFile (NewMemoryCache maxSize defaultTTL) snapshot now

/-- A concrete two-entry cache state used to exercise the persistence
round-trip on an explicit input: entry "a" expires at 100, entry "b" at
30, so a reload at time 50 must keep "a" and drop "b". -/
def exampleStore : MemoryCache :=
  { maxSize := 10, defaultTTL := 60,
    entries := [("a", ⟨{ key := "a", value := .vInt 1, reason := "api_evaluation" }, 100⟩),
                ("b", ⟨{ key := "b", value := .vInt 2, reason := "api_evaluation" }, 30⟩)] }

/-- A concrete operation sequence exercising capacity-2 eviction: insert
"a" and "b", read "a" (touching it), then insert "c", which must evict
the least-recently-used entry "b". -/
def c1ops : List CacheOp :=
  [.opSet "a" { key := "a", value := .vBool true, reason := "api_evaluation" } 0 10,
   .opSet "b" { key := "b", value := .vBool true, reason := "api_evaluation" } 0 20,
   .opGet "a" 25,
   .opSet "c" { key := "c", value := .vBool true, reason := "api_evaluation" } 0 30]

/-! ## Claim C2: lazy TTL expiry on read -/

/-- Claim C2: for every cache state and key, `MemoryCache.Get` returns
not-found from the instant the entry's `expiresAt` has passed, even
though no cleanup sweep is involved; and whenever `Get` does return a
value, the stored entry's expiration has not yet passed, so an entry past
its `expiresAt` instant is never returned to a caller. -/
theorem c2_ttl_lazy_expiry (c : MemoryCache) (now : Int) (key : String)
    (item : cacheItem) (hlook : c.lookup key = some item) :
    (item.expiration < now → (c.get now key).1 = none) ∧
    (∀ r, (c.get now key).1 = some r → r = item.value ∧ now ≤ item.expiration) := by
  unfold MemoryCache.lookup at hlook
  unfold MemoryCache.get
  cases hfind : c.entries.find? (fun e => e.1 == key) with
  | none =>
      rw [hfind] at hlook
      simp at hlook
  | some e =>
      rw [hfind] at hlook
      simp only [Option.map_some', Option.some.injEq] at hlook
      subst hlook
      constructor
      · intro hexp
        simp [hexp]
      · intro r hr
        by_cases hlt : e.2.expiration < now
        · simp [hlt] at hr
        · simp [hlt] at hr
          exact ⟨hr.symm, le_of_not_lt hlt⟩

/-- Witness for C2 on a concrete one-entry cache. -/
theorem c2_ttl_lazy_expiry_witness :
    let item : cacheItem :=
      { value := { key := "k", value := .vBool true, reason := "api_evaluation" },
        expiration := 50 }
    let c : MemoryCache := { maxSize := 10, defaultTTL := 60, entries := [("k", item)] }
    (item.expiration < 100 → (c.get 100 "k").1 = none) ∧
    (∀ r, (c.get 100 "k").1 = some r → r = item.value ∧ 100 ≤ item.expiration) := by
  exact c2_ttl_lazy_expiry _ 100 "k" _ rfl

/-! ## Claim C4: retry loop performs exactly n+1 attempts -/

/-- Helper for C4: when every attempt fails retryably, the loop consumes
all its fuel and returns the error of the final attempt. -/
theorem mrLoop_all_retryable (oracle : Nat → Option SDKErr)
    (hall : ∀ i, ∃ e, oracle i = some e ∧ IsRetryable e = true) :
    ∀ fuel attempt lastErr,
      mrLoop oracle (fuel + 1) attempt lastErr = (oracle (attempt + fuel), attempt + fuel + 1) := by
  intro fuel
  induction fuel with
  | zero =>
      intro attempt lastErr
      obtain ⟨e, he, hret⟩ := hall attempt
      simp [mrLoop, he, hret]
  | succ n ih =>
      intro attempt lastErr
      obtain ⟨e, he, hret⟩ := hall attempt
      have : mrLoop oracle (n + 1 + 1) attempt lastErr = mrLoop oracle (n + 1) (attempt + 1) (some e) := by
        simp [mrLoop, he, hret]
      rw [this, ih (attempt + 1) (some e)]
      rw [show attempt + 1 + n = attempt + (n + 1) by omega]

/-- Claim C4: for `retryAttempts = n` and a backend whose every attempt
fails with a retryable error, `makeRequest` performs exactly `n + 1`
attempts (the initial one plus `n` retries) and returns the error of the
last attempt; in particular, with `retryAttempts = 3` against an
always-HTTP-502 backend, exactly 4 attempts occur and the returned error
is the `NetworkError` with status 502. -/
theorem c4_retry_attempts (n : Nat) (oracle : Nat → Option SDKErr)
    (hall : ∀ i, ∃ e, oracle i = some e ∧ IsRetryable e = true) :
    makeRequest n oracle = (oracle n, n + 1) ∧
    makeRequest 3 (fun _ => some (.networkError 502)) = (some (.networkError 502), 4) := by
  constructor
  · have h := mrLoop_all_retryable oracle hall n 0 none
    simpa [makeRequest] using h
  · have h := mrLoop_all_retryable (fun _ => some (.networkError 502))
      (fun _ => ⟨.networkError 502, rfl, rfl⟩) 3 0 none
    simpa [makeRequest] using h

/-- Witness for C4 with the always-502 oracle and `retryAttempts = 3`. -/
theorem c4_retry_attempts_witness :
    makeRequest 3 (fun _ => some (.networkError 502)) = (some (.networkError 502), 4) :=
  (c4_retry_attempts 3 (fun _ => some (.networkError 502))
    (fun _ => ⟨.networkError 502, rfl, rfl⟩)).1

/-! ## Claim C5: HTTP error classification table -/

/-- Claim C5: for a response with status ≥ 400 whose body parses as an
error object, the classification maps 401 to a non-retryable
`AuthenticationError`, 400 to a non-retryable `ValidationError`, 429 to a
retryable `RateLimitError` (carrying the server-supplied retry-after from
the Details field when it parses), 408 to a retryable `TimeoutError`,
every status ≥ 500 to a retryable `NetworkError`, and every other 4xx to
a non-retryable `NetworkError`, where retryability is exactly what
`IsRetryable` reports. -/
theorem c5_error_classification (statusCode : Int) (apiErr : APIError)
    (hge : 400 ≤ statusCode) :
    (statusCode = 401 →
      handleHTTPError statusCode apiErr = .authenticationError ∧
      IsRetryable (handleHTTPError statusCode apiErr) = false) ∧
    (statusCode = 400 →
      handleHTTPError statusCode apiErr = .validationError ∧
      IsRetryable (handleHTTPError statusCode apiErr) = false) ∧
    (statusCode = 429 →
      handleHTTPError statusCode apiErr = .rateLimitError ((apiErr.details.toInt?).getD 0) ∧
      IsRetryable (handleHTTPError statusCode apiErr) = true) ∧
    (statusCode = 408 →
      handleHTTPError statusCode apiErr = .timeoutError ∧
      IsRetryable (handleHTTPError statusCode apiErr) = true) ∧
    (500 ≤ statusCode →
      handleHTTPError statusCode apiErr = .networkError statusCode ∧
      IsRetryable (handleHTTPError statusCode apiErr) = true) ∧
    (statusCode < 500 → statusCode ≠ 401 → statusCode ≠ 400 →
      statusCode ≠ 429 → statusCode ≠ 408 →
      handleHTTPError statusCode apiErr = .networkError statusCode ∧
      IsRetryable (handleHTTPError statusCode apiErr) = false) := by
  refine ⟨?_, ?_, ?_, ?_, ?_, ?_⟩
  · intro h; subst h; exact ⟨rfl, rfl⟩
  · intro h; subst h; exact ⟨rfl, rfl⟩
  · intro h; subst h; exact ⟨rfl, rfl⟩
  · intro h; subst h; exact ⟨rfl, rfl⟩
  · intro h
    have h1 : (statusCode == 401) = false := by simp; omega
    have h2 : (statusCode == 400) = false := by simp; omega
    have h3 : (statusCode == 429) = false := by simp; omega
    have h4 : (statusCode == 408) = false := by simp; omega
    refine ⟨?_, ?_⟩
    · simp [handleHTTPError, h1, h2, h3, h4]
    · simp [handleHTTPError, h1, h2, h3, h4, IsRetryable]
      omega
  · intro hlt h401 h400 h429 h408
    have h1 : (statusCode == 401) = false := by simp [h401]
    have h2 : (statusCode == 400) = false := by simp [h400]
    have h3 : (statusCode == 429) = false := by simp [h429]
    have h4 : (statusCode == 408) = false := by simp [h408]
    refine ⟨?_, ?_⟩
    · simp [handleHTTPError, h1, h2, h3, h4]
    · simp [handleHTTPError, h1, h2, h3, h4, IsRetryable]
      omega

/-- Witness for C5 at the concrete status 404. -/
theorem c5_error_classification_witness :
    (400 : Int) ≤ 404 ∧
    ((404 : Int) < 500 → (404 : Int) ≠ 401 → (404 : Int) ≠ 400 →
      (404 : Int) ≠ 429 → (404 : Int) ≠ 408 →
      handleHTTPError 404 ⟨"not_found", "missing", ""⟩ = .networkError 404 ∧
      IsRetryable (handleHTTPError 404 ⟨"not_found", "missing", ""⟩) = false) := by
  refine ⟨by norm_num, ?_⟩
  exact (c5_error_classification 404 ⟨"not_found", "missing", ""⟩ (by norm_num)).2.2.2.2.2

/-! ## Claim C6: backoff formula and the vanishing jitter -/

/-- Values already inside the signed 64-bit range are fixed points of the
wrap. -/
theorem wrap64_eq_self (n : Int) (hlo : -9223372036854775808 ≤ n)
    (hhi : n < 9223372036854775808) : wrap64 n = n := by
  unfold wrap64
  have hmod : (n + 9223372036854775808) % 18446744073709551616 =
      n + 9223372036854775808 :=
    Int.emod_eq_of_lt (by omega) (by omega)
  omega

/-- The jitter factor of the source truncates to zero for every possible
random sample. -/
theorem truncToInt_jitter_eq_zero (r : ℚ) (h0 : 0 ≤ r) (h1 : r < 1) :
    truncToInt (r * (1 / 2 : ℚ) - (1 / 4 : ℚ)) = 0 := by
  have hq0 : -1 < r * (1 / 2 : ℚ) - (1 / 4 : ℚ) := by linarith
  have hq1 : r * (1 / 2 : ℚ) - (1 / 4 : ℚ) < 1 := by linarith
  unfold truncToInt
  split_ifs with hpos
  · rw [Int.floor_eq_zero_iff]
    exact ⟨hpos, hq1⟩
  · rw [Int.ceil_eq_zero_iff]
    exact ⟨hq0, le_of_not_le hpos⟩

/-- Claim C6 (behaviour actually implemented): on the domain where the
64-bit arithmetic does not overflow (`attempt ≤ 36`, since
`100ms * 2^37` ns already exceeds the int64 range), the computed delay
equals `min(100ms * 2^attempt, 30s)` exactly, for every possible
`rand.Float64()` sample `r ∈ [0, 1)`: the jitter factor
`time.Duration(r*0.5 - 0.25)` truncates a float strictly between -1 and
1 to the integer 0, so the "±25% random variation" promised by the
source comment is identically zero and the delay does not depend on `r`
at all.  Past that domain the product wraps before the cap is tested:
at `attempt = 37` the delay is the same for every sample and is
negative. -/
theorem c6_backoff_jitter_is_zero (attempt : Nat) (hatt : attempt ≤ 36) (r : ℚ)
    (h0 : 0 ≤ r) (h1 : r < 1) :
    calculateBackoff attempt r = min (100000000 * 2 ^ attempt) 30000000000 ∧
    calculateBackoff 37 r = calculateBackoff 37 (1 / 2) ∧
    calculateBackoff 37 (1 / 2) < 0 := by
  have htr : truncToInt (r * (1 / 2 : ℚ) - (1 / 4 : ℚ)) = 0 :=
    truncToInt_jitter_eq_zero r h0 h1
  have htr2 : truncToInt ((1 / 2 : ℚ) * (1 / 2 : ℚ) - (1 / 4 : ℚ)) = 0 :=
    truncToInt_jitter_eq_zero (1 / 2) (by norm_num) (by norm_num)
  refine ⟨?_, ?_, ?_⟩
  · have hnn : (0 : Int) ≤ 2 ^ attempt := pow_nonneg (by norm_num) _
    have hle : (2 : Int) ^ attempt ≤ 2 ^ 36 := pow_le_pow_right (by norm_num) hatt
    have h36 : (2 : Int) ^ 36 = 68719476736 := by norm_num
    rw [h36] at hle
    have hw1 : wrap64 (2 ^ attempt) = 2 ^ attempt :=
      wrap64_eq_self _ (by omega) (by omega)
    have hmul_le : (100 * 1000000 : Int) * 2 ^ attempt ≤ 100 * 1000000 * 68719476736 :=
      mul_le_mul_of_nonneg_left hle (by norm_num)
    have hmul_nn : (0 : Int) ≤ (100 * 1000000 : Int) * 2 ^ attempt := by positivity
    have hw2 : wrap64 (100 * 1000000 * 2 ^ attempt) = 100 * 1000000 * 2 ^ attempt :=
      wrap64_eq_self _ (by omega) (by omega)
    have hw0 : wrap64 0 = 0 := wrap64_eq_self 0 (by omega) (by omega)
    simp only [calculateBackoff, htr, hw1, hw2, zero_mul, hw0, add_zero]
    by_cases hcap : (30 * 1000000000 : Int) < 100 * 1000000 * 2 ^ attempt
    · rw [if_pos hcap, wrap64_eq_self _ (by omega) (by omega)]
      omega
    · rw [if_neg hcap, wrap64_eq_self _ (by omega) (by omega)]
      omega
  · simp only [calculateBackoff, htr, htr2]
  · have hw0 : wrap64 0 = 0 := wrap64_eq_self 0 (by omega) (by omega)
    have h37 : (2 : Int) ^ 37 = 137438953472 := by norm_num
    simp only [calculateBackoff, htr2, zero_mul, hw0, add_zero, h37]
    decide

/-- Witness for C6 at `attempt = 9`, `r = 1/2` (the cap applies:
100ms * 512 > 30s). -/
theorem c6_backoff_jitter_is_zero_witness :
    (9 : Nat) ≤ 36 ∧ (0 : ℚ) ≤ 1 / 2 ∧ (1 / 2 : ℚ) < 1 ∧
    (calculateBackoff 9 (1 / 2) = min (100000000 * 2 ^ 9) 30000000000 ∧
     calculateBackoff 37 (1 / 2) = calculateBackoff 37 (1 / 2) ∧
     calculateBackoff 37 (1 / 2) < 0) :=
  ⟨by norm_num, by norm_num, by norm_num,
    c6_backoff_jitter_is_zero 9 (by norm_num) (1 / 2) (by norm_num) (by norm_num)⟩

/-! ## Claim C10: fresh API results are always boolean-valued -/

/-- Claim C10: every successful single-flag API evaluation produces a
result whose `Value` is the response's boolean `Enabled` field — never a
string, number, or JSON object — and carries no error; consequently the
typed string/int/float accessors applied to a result resolved fresh from
the API always return the caller-supplied default. -/
theorem c10_api_value_is_bool (flagKey : String) (defaultValue : GoValue)
    (enabled : Bool) (now : Int) (ds : String) (di : Int) (df : ℚ) :
    (evaluateFlagFromAPI flagKey defaultValue (.ok enabled) now).value = .vBool enabled ∧
    (evaluateFlagFromAPI flagKey defaultValue (.ok enabled) now).error = none ∧
    EvaluateFlagString (evaluateFlagFromAPI flagKey defaultValue (.ok enabled) now) ds = ds ∧
    EvaluateFlagInt (evaluateFlagFromAPI flagKey defaultValue (.ok enabled) now) di = di ∧
    EvaluateFlagFloat (evaluateFlagFromAPI flagKey defaultValue (.ok enabled) now) df = df :=
  ⟨rfl, rfl, rfl, rfl, rfl⟩

/-! ## Claim C8: cache-key determinism and (non-)injectivity -/

/-- Splitting a character list at its first colon is unambiguous. -/
theorem append_colon_cons_inj (a : List Char) :
    ∀ (a' b b' : List Char), ':' ∉ a → ':' ∉ a' →
      a ++ ':' :: b = a' ++ ':' :: b' → a = a' ∧ b = b' := by
  induction a with
  | nil =>
      intro a' b b' _ ha' h
      cases a' with
      | nil => simpa using h
      | cons c t =>
          simp only [List.nil_append, List.cons_append, List.cons.injEq] at h
          exact absurd (h.1 ▸ List.mem_cons_self c t) (h.1 ▸ ha')
  | cons c t ih =>
      intro a' b b' ha ha' h
      cases a' with
      | nil =>
          simp only [List.cons_append, List.nil_append, List.cons.injEq] at h
          exact absurd (h.1 ▸ List.mem_cons_self c t) (fun hmem => ha (h.1 ▸ hmem))
      | cons c' t' =>
          simp only [List.cons_append, List.cons.injEq] at h
          have hta : ':' ∉ t := fun hm => ha (List.mem_cons_of_mem c hm)
          have hta' : ':' ∉ t' := fun hm => ha' (List.mem_cons_of_mem c' hm)
          obtain ⟨h1, h2⟩ := ih t' b b' hta hta' h.2
          exact ⟨by rw [h.1, h1], h2⟩

/-- The character-level shape of a generated cache key. -/
theorem generateCacheKey_data (f u e : String) :
    (generateCacheKey f u e).data =
      'f' :: 'l' :: 'a' :: 'g' :: ':' ::
        (f.data ++ ':' :: 'u' :: 's' :: 'e' :: 'r' :: ':' ::
          (u.data ++ ':' :: 'e' :: 'n' :: 'v' :: ':' :: e.data)) := by
  simp [generateCacheKey, String.data_append]

/-- Counterexample for C8 as stated: the key derivation is not injective
on arbitrary inputs — an entityKey containing the separator text collides
with a different (entityKey, userID) pair. -/
theorem c8_counterexample :
    generateCacheKey "a:user:b" "c" "e" = generateCacheKey "a" "b:user:c" "e" ∧
    ¬("a:user:b" = "a" ∧ "c" = "b:user:c" ∧ "e" = "e") := by
  refine ⟨rfl, ?_⟩
  intro h
  exact absurd h.1 (by decide)

/-- Claim C8 (amended): the cache-key derivation is a deterministic
function of (entityKey, userID, environment), and it is injective
provided entityKey and userID contain no colon (the separator character);
both directions are stated as one equivalence: the keys agree exactly
when the inputs agree. -/
theorem c8_cache_key_amended (f u e f2 u2 e2 : String)
    (hf : ':' ∉ f.data) (hu : ':' ∉ u.data)
    (hf2 : ':' ∉ f2.data) (hu2 : ':' ∉ u2.data) :
    generateCacheKey f u e = generateCacheKey f2 u2 e2 ↔ (f = f2 ∧ u = u2 ∧ e = e2) := by
  constructor
  · intro h
    have hd := congrArg String.data h
    rw [generateCacheKey_data, generateCacheKey_data] at hd
    simp only [List.cons.injEq, true_and] at hd
    obtain ⟨hfd, hrest⟩ := append_colon_cons_inj f.data f2.data _ _ hf hf2 hd
    simp only [List.cons.injEq, true_and] at hrest
    obtain ⟨hud, hrest2⟩ := append_colon_cons_inj u.data u2.data _ _ hu hu2 hrest
    simp only [List.cons.injEq, true_and] at hrest2
    exact ⟨String.ext hfd, String.ext hud, String.ext hrest2⟩
  · rintro ⟨rfl, rfl, rfl⟩
    rfl

/-- Witness for the amended C8 at concrete colon-free inputs. -/
theorem c8_cache_key_amended_witness :
    (':' ∉ "f".data) ∧ (':' ∉ "u1".data) ∧ (':' ∉ "u2".data) ∧
    ((generateCacheKey "f" "u1" "prod" = generateCacheKey "f" "u2" "prod") ↔
      ("f" = "f" ∧ "u1" = "u2" ∧ "prod" = "prod")) :=
  ⟨by decide, by decide, by decide,
    c8_cache_key_amended "f" "u1" "prod" "f" "u2" "prod"
      (by decide) (by decide) (by decide) (by decide)⟩

/-! ## Claim C3: failures are never cached -/

/-- A read that misses leaves the cache state untouched. -/
theorem MemoryCache.get_miss_eq (c : MemoryCache) (now : Int) (key : String)
    (h : (c.get now key).1 = none) : c.get now key = (none, c) := by
  unfold MemoryCache.get at h ⊢
  cases hfind : c.entries.find? (fun e => e.1 == key) with
  | none => rfl
  | some e =>
      rw [hfind] at h
      by_cases hexp : e.2.expiration < now
      · simp [hexp]
      · simp [hexp] at h

/-- Claim C3: a single-flag evaluation whose network fetch fails returns
reason `error_fallback`, the caller-supplied default and the error, and
leaves the cache exactly as it was, so a subsequent call for the same key
(still a miss) attempts the network again; and the batch cache-population
loop writes only the batch entries whose error is nil, so failed batch
entries are likewise never cached. -/
theorem c3_no_cache_on_failure (cache : MemoryCache) (flagKey : String)
    (defaultValue : GoValue) (userID environment : String) (e : SDKErr) (now : Int)
    (hmiss : (cache.get now (generateCacheKey flagKey userID environment)).1 = none) :
    EvaluateFlag cache flagKey defaultValue userID environment (.error e) now =
      ({ key := flagKey, value := defaultValue, reason := "error_fallback",
         error := some e, evaluatedAt := now, cacheHit := false }, cache) ∧
    (∀ (d2 : GoValue) (resp2 : Except SDKErr Bool) (now2 : Int),
      (cache.get now2 (generateCacheKey flagKey userID environment)).1 = none →
      (EvaluateFlag cache flagKey d2 userID environment resp2 now2).1 =
        evaluateFlagFromAPI flagKey d2 resp2 now2) ∧
    (∀ (cache2 : MemoryCache) (batch : List (String × FlagResult)),
      cacheBatch userID environment now cache2 batch =
        cacheBatch userID environment now cache2
          (batch.filter (fun kr => kr.2.error.isNone))) := by
  refine ⟨?_, ?_, ?_⟩
  · unfold EvaluateFlag
    rw [MemoryCache.get_miss_eq cache now _ hmiss]
    rfl
  · intro d2 resp2 now2 hmiss2
    unfold EvaluateFlag
    rw [MemoryCache.get_miss_eq cache now2 _ hmiss2]
    cases resp2 with
    | error e2 => rfl
    | ok b2 => rfl
  · intro cache2 batch
    induction batch generalizing cache2 with
    | nil => rfl
    | cons kr rest ih =>
        have hcons : ∀ (c : MemoryCache) (l : List (String × FlagResult)) (x : String × FlagResult),
            cacheBatch userID environment now c (x :: l) =
              cacheBatch userID environment now
                (if x.2.error = none then
                  c.set now (generateCacheKey x.1 userID environment) x.2 0
                else c) l :=
          fun _ _ _ => rfl
        cases herr : kr.2.error with
        | none =>
            rw [show List.filter (fun kr => kr.2.error.isNone) (kr :: rest) =
                kr :: List.filter (fun kr => kr.2.error.isNone) rest from by
              simp [List.filter_cons, herr]]
            rw [hcons, hcons]
            exact ih _
        | some e2 =>
            rw [show List.filter (fun kr => kr.2.error.isNone) (kr :: rest) =
                List.filter (fun kr => kr.2.error.isNone) rest from by
              simp [List.filter_cons, herr]]
            rw [hcons, if_neg (by simp [herr])]
            exact ih cache2

/-- Witness for C3 on an empty cache with a network error. -/
theorem c3_no_cache_on_failure_witness :
    ((NewMemoryCache 10 60).get 5 (generateCacheKey "f" "u" "prod")).1 = none ∧
    (EvaluateFlag (NewMemoryCache 10 60) "f" (.vBool false) "u" "prod"
        (.error (.networkError 502)) 5 =
      ({ key := "f", value := .vBool false, reason := "error_fallback",
         error := some (.networkError 502), evaluatedAt := 5, cacheHit := false },
       NewMemoryCache 10 60)) := by
  refine ⟨rfl, ?_⟩
  exact (c3_no_cache_on_failure (NewMemoryCache 10 60) "f" (.vBool false) "u" "prod"
    (.networkError 502) 5 rfl).1

/-! ## Claim C7: batch independence -/

/-- Map lookup over a concatenation: the first list wins. -/
theorem lookupStr_append {α : Type} (l1 l2 : List (String × α)) (k : String) :
    lookupStr (l1 ++ l2) k =
      match lookupStr l1 k with
      | some v => some v
      | none => lookupStr l2 k := by
  unfold lookupStr
  rw [List.find?_append]
  cases List.find? (fun e => e.1 == k) l1 <;> simp

/-- Lookup commutes with a key-preserving map of the values. -/
theorem lookupStr_map_pair {α β : Type} (g : String → α → β)
    (l : List (String × α)) (k : String) :
    lookupStr (l.map (fun kr => (kr.1, g kr.1 kr.2))) k =
      (lookupStr l k).map (g k) := by
  induction l with
  | nil => rfl
  | cons kr rest ih =>
      by_cases hk : kr.1 = k
      · subst hk
        unfold lookupStr
        rw [List.map_cons, List.find?_cons_of_pos _ (by simp),
          List.find?_cons_of_pos _ (by simp)]
        rfl
      · unfold lookupStr at ih ⊢
        rw [List.map_cons, List.find?_cons_of_neg _ (by simpa using hk),
          List.find?_cons_of_neg _ (by simpa using hk)]
        exact ih

/-- Lookup in a tagging map of a key list containing the key. -/
theorem lookupStr_map_tag {β : Type} (g : String → β) :
    ∀ (l : List String) (k : String), k ∈ l →
      lookupStr (l.map (fun k2 => (k2, g k2))) k = some (g k) := by
  intro l
  induction l with
  | nil => intro k hk; cases hk
  | cons k2 rest ih =>
      intro k hk
      by_cases heq : k2 = k
      · subst heq
        unfold lookupStr
        rw [List.map_cons, List.find?_cons_of_pos _ (by simp)]
        rfl
      · unfold lookupStr at ih ⊢
        rw [List.map_cons, List.find?_cons_of_neg _ (by simpa using heq)]
        exact ih k (by
          cases hk with
          | head => exact absurd rfl heq
          | tail _ h => exact h)

/-- Scanning the per-key cache loop over an empty cache caches nothing and
accumulates every key as uncached. -/
theorem scan_empty_cache (userID environment : String) (now : Int) (ms ttl : Int) :
    ∀ (ks : List String) (res : List (String × FlagResult)) (unc : List String),
      ks.foldl (scanStep userID environment now) (res, unc, NewMemoryCache ms ttl) =
        (res, unc ++ ks, NewMemoryCache ms ttl) := by
  intro ks
  induction ks with
  | nil => intro res unc; simp
  | cons k rest ih =>
      intro res unc
      have hstep : scanStep userID environment now (res, unc, NewMemoryCache ms ttl) k =
          (res, unc ++ [k], NewMemoryCache ms ttl) := rfl
      rw [List.foldl_cons, hstep, ih (res) (unc ++ [k])]
      simp

/-- Claim C7: in a batch evaluation, a key that the backend's batch
response omits (or errors on — an errored key is absent from the `Results`
map) defaults alone, with reason `not_found` and an attached error, while
every key present in the response gets reason `api_evaluation` with its
own `Enabled` value; each key's result is a function of that key's entry
in the response only, so no key's failure affects its siblings.  On a
fresh (all-miss) cache, `EvaluateFlags` returns exactly these per-key
results. -/
theorem c7_batch_independence (flagKeys : List String)
    (results results2 : List (String × Bool)) (now : Int) (k : String)
    (hk : k ∈ flagKeys) :
    (∀ b, lookupStr results k = some b →
      lookupStr (evaluateFlagsFromAPI flagKeys (.ok results) now) k =
        some (mkApiResult now k b)) ∧
    (lookupStr results k = none →
      lookupStr (evaluateFlagsFromAPI flagKeys (.ok results) now) k =
        some (mkNotFoundResult now k)) ∧
    (lookupStr results k = lookupStr results2 k →
      lookupStr (evaluateFlagsFromAPI flagKeys (.ok results) now) k =
        lookupStr (evaluateFlagsFromAPI flagKeys (.ok results2) now) k) ∧
    (∀ (userID environment : String) (ms ttl : Int), flagKeys ≠ [] →
      (EvaluateFlags (NewMemoryCache ms ttl) flagKeys userID environment
          (.ok results) now).1 =
        evaluateFlagsFromAPI flagKeys (.ok results) now) := by
  have hsome : ∀ (rs : List (String × Bool)) (b : Bool), lookupStr rs k = some b →
      lookupStr (evaluateFlagsFromAPI flagKeys (.ok rs) now) k =
        some (mkApiResult now k b) := by
    intro rs b hb
    unfold evaluateFlagsFromAPI
    rw [lookupStr_append]
    rw [lookupStr_map_pair (mkApiResult now) rs k]
    rw [hb]
    rfl
  have hnone : ∀ (rs : List (String × Bool)), lookupStr rs k = none →
      lookupStr (evaluateFlagsFromAPI flagKeys (.ok rs) now) k =
        some (mkNotFoundResult now k) := by
    intro rs hb
    unfold evaluateFlagsFromAPI
    rw [lookupStr_append]
    rw [lookupStr_map_pair (mkApiResult now) rs k]
    rw [hb]
    rw [lookupStr_map_tag (mkNotFoundResult now)
      (flagKeys.filter (fun k2 => (lookupStr rs k2).isNone)) k
      (List.mem_filter.mpr ⟨hk, by rw [hb]; rfl⟩)]
    rfl
  refine ⟨hsome results, hnone results, ?_, ?_⟩
  · intro heq
    cases hl : lookupStr results k with
    | some b =>
        rw [hsome results b hl, hsome results2 b (by rw [← heq, hl])]
    | none =>
        rw [hnone results hl, hnone results2 (by rw [← heq, hl])]
  · intro userID environment ms ttl hne
    unfold EvaluateFlags
    rw [scan_empty_cache userID environment now ms ttl flagKeys [] []]
    simp only [List.nil_append]
    rw [if_neg hne]
    simp

/-- Witness for C7: a batch of three keys where the backend answers two
and omits the third. -/
theorem c7_batch_independence_witness :
    ("c" ∈ ["a", "b", "c"]) ∧
    (lookupStr [("a", true), ("b", false)] "c" = none →
      lookupStr (evaluateFlagsFromAPI ["a", "b", "c"]
          (.ok [("a", true), ("b", false)]) 7) "c" =
        some (mkNotFoundResult 7 "c")) := by
  refine ⟨by decide, ?_⟩
  exact (c7_batch_independence ["a", "b", "c"] [("a", true), ("b", false)]
    [("a", true), ("b", false)] 7 "c" (by decide)).2.1

/-! ## Claim C9: persistence round-trip -/

/-- Eviction is a no-op when the list is already within capacity. -/
theorem evictIfNeeded_of_le (ms : Int) (l : List (String × cacheItem))
    (h : (l.length : Int) ≤ ms) : evictIfNeeded ms l = l := by
  rw [evictIfNeeded]
  rw [dif_neg]
  intro hc
  exact absurd hc.1 (not_lt.mpr h)

/-- An absent key means the underlying search fails. -/
theorem lookup_none_find? (c : MemoryCache) (key : String)
    (h : c.lookup key = none) : c.entries.find? (fun e => e.1 == key) = none := by
  unfold MemoryCache.lookup at h
  cases hf : c.entries.find? (fun e => e.1 == key) with
  | none => rfl
  | some e => rw [hf] at h; simp at h

/-- `Set` never changes the configured capacity. -/
theorem MemoryCache.set_maxSize (c : MemoryCache) (now : Int) (key : String)
    (r : FlagResult) (ttl : Int) : (c.set now key r ttl).maxSize = c.maxSize := by
  unfold MemoryCache.set
  cases c.entries.find? (fun e => e.1 == key) <;> rfl

/-- Setting a fresh key with room to spare and a nonzero ttl simply pushes
the new entry at the front. -/
theorem set_fresh_cons (c : MemoryCache) (now : Int) (key : String)
    (r : FlagResult) (ttl : Int) (hfresh : c.lookup key = none)
    (hroom : (c.entries.length : Int) + 1 ≤ c.maxSize) (httl : ttl ≠ 0) :
    (c.set now key r ttl).entries = (key, ⟨r, now + ttl⟩) :: c.entries := by
  unfold MemoryCache.set
  rw [lookup_none_find? c key hfresh]
  have hbeq : (ttl == 0) = false := by
    simp [httl]
  simp only [hbeq, Bool.false_eq_true, if_false]
  exact evictIfNeeded_of_le c.maxSize _ (by simpa using hroom)

/-- A key outside an association list's key set has no binding. -/
theorem lookupStr_eq_none_of_not_mem {α : Type} (l : List (String × α)) (k : String)
    (h : k ∉ l.map Prod.fst) : lookupStr l k = none := by
  unfold lookupStr
  cases hf : l.find? (fun e => e.1 == k) with
  | none => rfl
  | some e =>
      have hmem := List.mem_of_find?_eq_some hf
      have hbeq : e.1 = k := by simpa using List.find?_some hf
      exact absurd (hbeq ▸ List.mem_map_of_mem Prod.fst hmem) h

/-- Head binding of an association list. -/
theorem lookupStr_cons_self {α : Type} (x : String × α) (l : List (String × α)) :
    lookupStr (x :: l) x.1 = some x.2 := by
  unfold lookupStr
  rw [List.find?_cons_of_pos _ (by simp)]
  rfl

/-- Skipping a head binding with a different key. -/
theorem lookupStr_cons_ne {α : Type} (x : String × α) (l : List (String × α))
    (k : String) (h : x.1 ≠ k) : lookupStr (x :: l) k = lookupStr l k := by
  unfold lookupStr
  rw [List.find?_cons_of_neg _ (by simpa using h)]

/-- Loading a snapshot with distinct keys into a cache that contains none
of them and has room for all surviving entries reproduces exactly the
entries whose expiration is still in the future. -/
theorem loadFromFile_lookup (now : Int) :
    ∀ (snapshot : List (String × cacheItem)) (c : MemoryCache),
      (snapshot.map Prod.fst).Nodup →
      (∀ k ∈ snapshot.map Prod.fst, c.lookup k = none) →
      ((c.entries.length : Int) +
        ((snapshot.filter (fun it => now < it.2.expiration)).length : Int) ≤ c.maxSize) →
      ∀ key, (loadFromFile c snapshot now).lookup key =
        match lookupStr snapshot key with
        | some it => if now < it.expiration then some it else none
        | none => c.lookup key := by
  intro snapshot
  induction snapshot with
  | nil =>
      intro c _ _ _ key
      rfl
  | cons it rest ih =>
      intro c hnodup hfreshAll hroom key
      have hksplit : (it :: rest).map Prod.fst = it.1 :: rest.map Prod.fst := rfl
      rw [hksplit] at hnodup hfreshAll
      have hnotmem : it.1 ∉ rest.map Prod.fst := (List.nodup_cons.mp hnodup).1
      have hnodup2 : (rest.map Prod.fst).Nodup := (List.nodup_cons.mp hnodup).2
      have hfresh : c.lookup it.1 = none := hfreshAll it.1 (List.mem_cons_self _ _)
      by_cases hkeep : now < it.2.expiration
      · have httl : it.2.expiration - now ≠ 0 := by omega
        have hfilter : List.filter (fun x => decide (now < x.2.expiration)) (it :: rest) =
            it :: List.filter (fun x => decide (now < x.2.expiration)) rest := by
          simp [List.filter_cons, hkeep]
        rw [hfilter] at hroom
        have hflen : ((it :: List.filter (fun x => decide (now < x.2.expiration)) rest).length : Int) =
            ((List.filter (fun x => decide (now < x.2.expiration)) rest).length : Int) + 1 := by
          simp
        rw [hflen] at hroom
        have hfnonneg : (0 : Int) ≤
            ((List.filter (fun x => decide (now < x.2.expiration)) rest).length : Int) :=
          Int.natCast_nonneg _
        have hroom1 : (c.entries.length : Int) + 1 ≤ c.maxSize := by omega
        have hset : (c.set now it.1 it.2.value (it.2.expiration - now)).entries =
            (it.1, ⟨it.2.value, now + (it.2.expiration - now)⟩) :: c.entries :=
          set_fresh_cons c now it.1 it.2.value (it.2.expiration - now) hfresh hroom1 httl
        have hitem : (⟨it.2.value, now + (it.2.expiration - now)⟩ : cacheItem) = it.2 := by
          have harith : now + (it.2.expiration - now) = it.2.expiration := by ring
          rw [harith]
        rw [hitem] at hset
        have hload : loadFromFile c (it :: rest) now =
            loadFromFile (c.set now it.1 it.2.value (it.2.expiration - now)) rest now := by
          unfold loadFromFile
          rw [List.foldl_cons, if_pos hkeep]
        have hmax2 : (c.set now it.1 it.2.value (it.2.expiration - now)).maxSize = c.maxSize :=
          MemoryCache.set_maxSize c now it.1 it.2.value (it.2.expiration - now)
        have hlookup2 : ∀ k2, k2 ≠ it.1 →
            (c.set now it.1 it.2.value (it.2.expiration - now)).lookup k2 = c.lookup k2 := by
          intro k2 hne
          unfold MemoryCache.lookup
          rw [hset]
          rw [List.find?_cons_of_neg _ (by simpa using hne.symm)]
        have hlookup2self :
            (c.set now it.1 it.2.value (it.2.expiration - now)).lookup it.1 = some it.2 := by
          unfold MemoryCache.lookup
          rw [hset]
          rw [List.find?_cons_of_pos _ (by simp)]
          rfl
        have hfresh2 : ∀ k2 ∈ rest.map Prod.fst,
            (c.set now it.1 it.2.value (it.2.expiration - now)).lookup k2 = none := by
          intro k2 hk2
          rw [hlookup2 k2 (fun he => hnotmem (he ▸ hk2))]
          exact hfreshAll k2 (List.mem_cons_of_mem _ hk2)
        have hroom2 : ((c.set now it.1 it.2.value (it.2.expiration - now)).entries.length : Int) +
            ((List.filter (fun x => decide (now < x.2.expiration)) rest).length : Int) ≤
            (c.set now it.1 it.2.value (it.2.expiration - now)).maxSize := by
          have hlen2 : ((c.set now it.1 it.2.value (it.2.expiration - now)).entries.length : Int) =
              (c.entries.length : Int) + 1 := by
            rw [hset]
            simp
          rw [hlen2, hmax2]
          omega
        rw [hload, ih (c.set now it.1 it.2.value (it.2.expiration - now)) hnodup2 hfresh2 hroom2 key]
        by_cases hkey : key = it.1
        · have hrest : lookupStr rest key = none := by
            rw [hkey]
            exact lookupStr_eq_none_of_not_mem rest it.1 hnotmem
          have hhead : lookupStr (it :: rest) key = some it.2 := by
            rw [hkey]
            exact lookupStr_cons_self it rest
          have hself : (c.set now it.1 it.2.value (it.2.expiration - now)).lookup key =
              some it.2 := by
            rw [hkey]
            exact hlookup2self
          rw [hrest, hhead, hself]
          simp [hkeep]
        · have htail : lookupStr (it :: rest) key = lookupStr rest key :=
            lookupStr_cons_ne it rest key (fun he => hkey he.symm)
          rw [htail]
          cases hr : lookupStr rest key with
          | some it2 => rfl
          | none => exact hlookup2 key hkey
      · have hfilter : List.filter (fun x => decide (now < x.2.expiration)) (it :: rest) =
            List.filter (fun x => decide (now < x.2.expiration)) rest := by
          simp [List.filter_cons, hkeep]
        rw [hfilter] at hroom
        have hload : loadFromFile c (it :: rest) now = loadFromFile c rest now := by
          unfold loadFromFile
          rw [List.foldl_cons, if_neg hkeep]
        rw [hload]
        rw [ih c hnodup2
          (fun k2 hk2 => hfreshAll k2 (List.mem_cons_of_mem _ hk2)) hroom key]
        by_cases hkey : key = it.1
        · have hrest : lookupStr rest key = none := by
            rw [hkey]
            exact lookupStr_eq_none_of_not_mem rest it.1 hnotmem
          have hhead : lookupStr (it :: rest) key = some it.2 := by
            rw [hkey]
            exact lookupStr_cons_self it rest
          rw [hrest, hhead]
          simp [hkeep, hkey, hfresh]
        · have htail : lookupStr (it :: rest) key = lookupStr rest key :=
            lookupStr_cons_ne it rest key (fun he => hkey he.symm)
          rw [htail]

/-- Lookup commutes with a key-preserving map of the stored items. -/
theorem lookupStr_map_item (f : cacheItem → cacheItem)
    (l : List (String × cacheItem)) (k : String) :
    lookupStr (l.map (fun e => (e.1, f e.2))) k = (lookupStr l k).map f := by
  induction l with
  | nil => rfl
  | cons kr rest ih =>
      by_cases hk : kr.1 = k
      · unfold lookupStr
        rw [List.map_cons, List.find?_cons_of_pos _ (by simp [hk]),
          List.find?_cons_of_pos _ (by simp [hk])]
        rfl
      · unfold lookupStr at ih ⊢
        rw [List.map_cons, List.find?_cons_of_neg _ (by simpa using hk),
          List.find?_cons_of_neg _ (by simpa using hk)]
        exact ih

/-- Counterexample for C9 as stated: values are not reproduced exactly
across a restart.  The int-valued live entry of `exampleStore` reloads
with a float value (`json.Unmarshal` decodes every JSON number into
float64), so the reloaded entry differs from the saved one. -/
theorem c9_counterexample :
    (NewPersistentCache 10 60 (saveToFile exampleStore) 50).lookup "a" =
      some ⟨{ key := "a", value := .vFloat 1, reason := "api_evaluation" }, 100⟩ ∧
    (NewPersistentCache 10 60 (saveToFile exampleStore) 50).lookup "a" ≠
      some ⟨{ key := "a", value := .vInt 1, reason := "api_evaluation" }, 100⟩ ∧
    exampleStore.lookup "a" =
      some ⟨{ key := "a", value := .vInt 1, reason := "api_evaluation" }, 100⟩ ∧
    (50 : Int) < 100 := by
  have h := loadFromFile_lookup 50 (saveToFile exampleStore) (NewMemoryCache 10 60)
    (by decide) (fun _ _ => rfl) (by decide) "a"
  have hA : (NewPersistentCache 10 60 (saveToFile exampleStore) 50).lookup "a" =
      some ⟨{ key := "a", value := .vFloat 1, reason := "api_evaluation" }, 100⟩ := by
    show (loadFromFile (NewMemoryCache 10 60) (saveToFile exampleStore) 50).lookup "a" = _
    rw [h]
    decide
  refine ⟨hA, ?_, by decide, by decide⟩
  rw [hA]
  decide

/-- Claim C9 (amended): for every cache state written through a
`PersistentCache` (distinct keys, within capacity), constructing a fresh
instance over the saved snapshot at load time `now` reproduces the
entries whose expiration is still in the future — same keys and expiry
instants, and the same values up to the JSON decode (`jsonRoundTripItem`:
the non-serialized `Error` field is dropped and `interface{}` int values
come back as float64) — and drops every entry whose expiration has
passed. -/
theorem c9_persistence_round_trip (maxSize defaultTTL : Int) (m : MemoryCache)
    (now : Int) (hnodup : (m.entries.map Prod.fst).Nodup)
    (hsize : (m.entries.length : Int) ≤ maxSize) :
    ∀ key, (NewPersistentCache maxSize defaultTTL (saveToFile m) now).lookup key =
      match m.lookup key with
      | some it => if now < it.expiration then some (jsonRoundTripItem it) else none
      | none => none := by
  intro key
  have hkeys : (saveToFile m).map Prod.fst = m.entries.map Prod.fst := by
    unfold saveToFile
    rw [List.map_map]
    rfl
  unfold NewPersistentCache
  rw [loadFromFile_lookup now (saveToFile m) (NewMemoryCache maxSize defaultTTL)
    (by rw [hkeys]; exact hnodup)
    (fun _ _ => rfl)
    (by
      have hle : (List.filter (fun x => decide (now < x.2.expiration))
          (saveToFile m)).length ≤ (saveToFile m).length := List.length_filter_le _ _
      have hlen : (saveToFile m).length = m.entries.length := by
        unfold saveToFile
        exact List.length_map _ _
      have h0 : ((NewMemoryCache maxSize defaultTTL).entries.length : Int) = 0 := rfl
      rw [h0]
      have hm : (NewMemoryCache maxSize defaultTTL).maxSize = maxSize := rfl
      rw [hm]
      omega)
    key]
  have hsnap : lookupStr (saveToFile m) key = (m.lookup key).map jsonRoundTripItem := by
    unfold saveToFile
    rw [lookupStr_map_item jsonRoundTripItem m.entries key]
    rfl
  rw [hsnap]
  cases m.lookup key with
  | some it => rfl
  | none => rfl

/-- Witness for the amended C9 on a cache holding one live and one
expired entry, reloaded at time 50: the live entry "a" survives with its
expiry and JSON-decoded value, the expired entry "b" is dropped. -/
theorem c9_persistence_round_trip_witness :
    (NewPersistentCache 10 60 (saveToFile exampleStore) 50).lookup "b" = none ∧
    (NewPersistentCache 10 60 (saveToFile exampleStore) 50).lookup "a" =
      some (jsonRoundTripItem
        ⟨{ key := "a", value := .vInt 1, reason := "api_evaluation" }, 100⟩) := by
  have hb := c9_persistence_round_trip 10 60 exampleStore 50 (by decide) (by decide) "b"
  have ha := c9_persistence_round_trip 10 60 exampleStore 50 (by decide) (by decide) "a"
  refine ⟨?_, ?_⟩
  · rw [hb]
    rfl
  · rw [ha]
    rfl

/-! ## Claim C1: capacity invariant and LRU eviction order -/

/-- Running one more operation. -/
theorem runOps_append (c : MemoryCache) (ops : List CacheOp) (op : CacheOp) :
    runOps c (ops ++ [op]) = applyOp (runOps c ops) op := by
  unfold runOps
  rw [List.foldl_append]
  rfl

/-- Appending one operation to a trace updates the last-touch index of
exactly the keys that operation touches, setting them to its position. -/
theorem lastTouchAux_append (key : String) (op : CacheOp) :
    ∀ (ops : List CacheOp) (c : MemoryCache) (i : Nat),
      lastTouchAux c i key (ops ++ [op]) =
        if touches (runOps c ops) op key then some (i + ops.length)
        else lastTouchAux c i key ops := by
  intro ops
  induction ops with
  | nil =>
      intro c i
      by_cases ht : touches c op key
      · simp [lastTouchAux, runOps, ht]
      · simp [lastTouchAux, runOps, ht]
  | cons o os ih =>
      intro c i
      have hlhs : lastTouchAux c i key ((o :: os) ++ [op]) =
          match lastTouchAux (applyOp c o) (i + 1) key (os ++ [op]) with
          | some t => some t
          | none => if touches c o key then some i else none := rfl
      have hrun : runOps c (o :: os) = runOps (applyOp c o) os := rfl
      rw [hlhs, ih (applyOp c o) (i + 1), hrun]
      by_cases ht : touches (runOps (applyOp c o) os) op key
      · rw [if_pos ht, if_pos ht]
        have : i + 1 + os.length = i + (os.length + 1) := by omega
        rw [this]
        rfl
      · rw [if_neg ht, if_neg ht]
        rfl

/-- A recorded last-touch index always lies inside the trace. -/
theorem lastTouchAux_lt (key : String) :
    ∀ (ops : List CacheOp) (c : MemoryCache) (i t : Nat),
      lastTouchAux c i key ops = some t → i ≤ t ∧ t < i + ops.length := by
  intro ops
  induction ops with
  | nil =>
      intro c i t h
      simp [lastTouchAux] at h
  | cons o os ih =>
      intro c i t h
      unfold lastTouchAux at h
      cases hrec : lastTouchAux (applyOp c o) (i + 1) key os with
      | some t2 =>
          rw [hrec] at h
          have hb := ih (applyOp c o) (i + 1) t2 hrec
          have ht : t2 = t := by simpa using h
          subst ht
          constructor
          · omega
          · simp only [List.length_cons]
            omega
      | none =>
          rw [hrec] at h
          by_cases htc : touches c o key
          · rw [if_pos htc] at h
            have : i = t := by simpa using h
            subst this
            constructor
            · exact Nat.le_refl i
            · simp only [List.length_cons]
              omega
          · rw [if_neg htc] at h
            simp at h

/-- An LRU-ordered list stays ordered on a sublist. -/
theorem goodList_sublist (c0 : MemoryCache) (ops : List CacheOp)
    (l1 l2 : List (String × cacheItem)) (hs : List.Sublist l1 l2)
    (h : goodList c0 ops l2) : goodList c0 ops l1 :=
  ⟨fun e he => h.1 e (hs.subset he), List.Pairwise.sublist hs h.2⟩

/-- LRU order depends on the trace only through last-touch indices. -/
theorem goodList_congr (c0 : MemoryCache) (ops1 ops2 : List CacheOp)
    (l : List (String × cacheItem))
    (hsame : ∀ e ∈ l, lastTouch c0 ops2 e.1 = lastTouch c0 ops1 e.1)
    (h : goodList c0 ops1 l) : goodList c0 ops2 l := by
  constructor
  · intro e he
    rw [hsame e he]
    exact h.1 e he
  · refine List.Pairwise.imp_of_mem ?_ h.2
    intro e1 e2 h1 h2 himp t1 t2 ht1 ht2
    exact himp t1 t2 (by rw [← hsame e1 h1]; exact ht1) (by rw [← hsame e2 h2]; exact ht2)

/-- Pushing the entry touched by the newest operation at the front of an
LRU-ordered list (none of whose entries the operation touches) keeps the
list LRU-ordered for the extended trace. -/
theorem goodList_cons_front (c0 : MemoryCache) (ops : List CacheOp) (op : CacheOp)
    (k0 : String) (item : cacheItem) (l : List (String × cacheItem))
    (htouch : touches (runOps c0 ops) op k0 = true)
    (hothers : ∀ e ∈ l, touches (runOps c0 ops) op e.1 = false)
    (h : goodList c0 ops l) :
    goodList c0 (ops ++ [op]) ((k0, item) :: l) := by
  have hlt0 : lastTouch c0 (ops ++ [op]) k0 = some ops.length := by
    unfold lastTouch
    rw [lastTouchAux_append k0 op ops c0 0, if_pos htouch]
    rw [Nat.zero_add]
  have hlt2 : ∀ e ∈ l, lastTouch c0 (ops ++ [op]) e.1 = lastTouch c0 ops e.1 := by
    intro e he
    unfold lastTouch
    rw [lastTouchAux_append e.1 op ops c0 0, if_neg (by rw [hothers e he]; simp)]
  have htails : goodList c0 (ops ++ [op]) l :=
    goodList_congr c0 ops (ops ++ [op]) l hlt2 h
  constructor
  · intro e he
    cases List.mem_cons.mp he with
    | inl h0 =>
        rw [h0]
        rw [hlt0]
        rfl
    | inr h1 => exact htails.1 e h1
  · rw [List.pairwise_cons]
    refine ⟨?_, htails.2⟩
    intro e he t1 t2 ht1 ht2
    have ht1v : t1 = ops.length := by
      rw [hlt0] at ht1
      simpa using ht1.symm
    rw [hlt2 e he] at ht2
    have hb := lastTouchAux_lt e.1 ops c0 0 t2 ht2
    omega

/-- A list in LRU order for an extended trace, none of whose entries the
new operation touches, retains the old last-touch indices. -/
theorem goodList_untouched (c0 : MemoryCache) (ops : List CacheOp) (op : CacheOp)
    (l : List (String × cacheItem))
    (hnt : ∀ e ∈ l, touches (runOps c0 ops) op e.1 = false)
    (h : goodList c0 ops l) : goodList c0 (ops ++ [op]) l :=
  goodList_congr c0 ops (ops ++ [op]) l
    (fun e he => by
      unfold lastTouch
      rw [lastTouchAux_append e.1 op ops c0 0, if_neg (by rw [hnt e he]; simp)]) h

/-- Closed form of the eviction loop under a nonnegative capacity:
repeatedly removing the back element until within bounds keeps exactly
the front `maxSize` entries (all of them when already within bounds). -/
theorem evictIfNeeded_eq_take (ms : Int) (hms : 0 ≤ ms) :
    ∀ (n : Nat) (l : List (String × cacheItem)), l.length = n →
      evictIfNeeded ms l = l.take (min l.length ms.toNat) := by
  intro n
  induction n using Nat.strong_induction_on with
  | _ n ih =>
      intro l hn
      rw [evictIfNeeded]
      split_ifs with hc
      · obtain ⟨hlt, hne⟩ := hc
        have hpos : 0 < l.length := List.length_pos.mpr hne
        have hlen : l.dropLast.length = l.length - 1 := List.length_dropLast l
        have hrec := ih l.dropLast.length
          (by rw [hlen, ← hn]; exact Nat.sub_lt hpos Nat.one_pos) l.dropLast rfl
        rw [hrec, hlen, List.dropLast_eq_take, List.take_take]
        have htn : ms.toNat ≤ l.length - 1 := by omega
        have h1 : min (l.length - 1) ms.toNat = ms.toNat := by omega
        have h2 : min ms.toNat (l.length - 1) = ms.toNat := by omega
        have h3 : min l.length ms.toNat = ms.toNat := by omega
        rw [h1, h2, h3]
      · push_neg at hc
        rcases Classical.em (l = []) with hnil | hnil
        · subst hnil
          simp
        · have hle : (l.length : Int) ≤ ms := not_lt.mp (fun hgt => hnil (hc hgt))
          have h4 : min l.length ms.toNat = l.length := by omega
          rw [h4, List.take_length]

/-- Every operation preserves the configured capacity and default TTL. -/
theorem applyOp_fields (c : MemoryCache) (op : CacheOp) :
    (applyOp c op).maxSize = c.maxSize ∧ (applyOp c op).defaultTTL = c.defaultTTL := by
  cases op with
  | opSet k r ttl now =>
      simp only [applyOp, MemoryCache.set]
      cases c.entries.find? (fun e => e.1 == k) <;> exact ⟨rfl, rfl⟩
  | opGet k now =>
      simp only [applyOp, MemoryCache.get]
      cases c.entries.find? (fun e => e.1 == k) with
      | none => exact ⟨rfl, rfl⟩
      | some e => by_cases hexp : e.2.expiration < now <;> simp [hexp]
  | opDelete k => exact ⟨rfl, rfl⟩
  | opClear => exact ⟨rfl, rfl⟩

/-- State equation: `Get` on an absent key. -/
theorem MemoryCache.get_nofind (c : MemoryCache) (now : Int) (key : String)
    (hfind : c.entries.find? (fun e => e.1 == key) = none) :
    c.get now key = (none, c) := by
  unfold MemoryCache.get
  rw [hfind]

/-- State equation: `Get` on an expired entry. -/
theorem MemoryCache.get_expired (c : MemoryCache) (now : Int) (key : String)
    (e : String × cacheItem)
    (hfind : c.entries.find? (fun x => x.1 == key) = some e)
    (hexp : e.2.expiration < now) :
    c.get now key = (none, c) := by
  unfold MemoryCache.get
  rw [hfind]
  simp [hexp]

/-- State equation: `Get` on a live entry moves it to the front. -/
theorem MemoryCache.get_live (c : MemoryCache) (now : Int) (key : String)
    (e : String × cacheItem)
    (hfind : c.entries.find? (fun x => x.1 == key) = some e)
    (hexp : ¬ e.2.expiration < now) :
    c.get now key = (some e.2.value, { c with entries := e :: eraseKey key c.entries }) := by
  unfold MemoryCache.get
  rw [hfind]
  simp [hexp]

/-- State equation: `Set` on an existing key rewrites it at the front. -/
theorem MemoryCache.set_found (c : MemoryCache) (now : Int) (key : String)
    (r : FlagResult) (ttl : Int) (e : String × cacheItem)
    (hfind : c.entries.find? (fun x => x.1 == key) = some e) :
    c.set now key r ttl =
      { c with entries :=
          (key, ⟨r, now + (if ttl == 0 then c.defaultTTL else ttl)⟩) ::
            eraseKey key c.entries } := by
  unfold MemoryCache.set
  rw [hfind]

/-- State equation: `Set` on a new key pushes it at the front, then
evicts. -/
theorem MemoryCache.set_fresh (c : MemoryCache) (now : Int) (key : String)
    (r : FlagResult) (ttl : Int)
    (hfind : c.entries.find? (fun x => x.1 == key) = none) :
    c.set now key r ttl =
      { c with entries := evictIfNeeded c.maxSize
                  ((key, ⟨r, now + (if ttl == 0 then c.defaultTTL else ttl)⟩) ::
                    c.entries) } := by
  unfold MemoryCache.set
  rw [hfind]

/-- Wrapper for the eviction closed form with the length inferred. -/
theorem evictIfNeeded_take (ms : Int) (hms : 0 ≤ ms) (l : List (String × cacheItem)) :
    evictIfNeeded ms l = l.take (min l.length ms.toNat) :=
  evictIfNeeded_eq_take ms hms l.length l rfl

/-- Every operation keeps a within-capacity cache within capacity. -/
theorem applyOp_size_le (c : MemoryCache) (op : CacheOp) (hms : 0 ≤ c.maxSize)
    (h : (c.entries.length : Int) ≤ c.maxSize) :
    ((applyOp c op).entries.length : Int) ≤ c.maxSize := by
  cases op with
  | opSet k r ttl now =>
      show (((c.set now k r ttl).entries.length : Int)) ≤ c.maxSize
      cases hfind : c.entries.find? (fun e => e.1 == k) with
      | some e =>
          rw [MemoryCache.set_found c now k r ttl e hfind]
          have hq : e.1 = k := by simpa using List.find?_some hfind
          have hlt : (List.filter (fun e2 => e2.1 != k) c.entries).length < c.entries.length :=
            List.length_filter_lt_length_iff_exists.mpr
              ⟨e, List.mem_of_find?_eq_some hfind, by simp [hq]⟩
          simp only [eraseKey, List.length_cons]
          omega
      | none =>
          rw [MemoryCache.set_fresh c now k r ttl hfind]
          rw [evictIfNeeded_take c.maxSize hms]
          simp only [List.length_take, List.length_cons]
          have := Int.toNat_of_nonneg hms
          omega
  | opGet k now =>
      show ((((c.get now k).2).entries.length : Int)) ≤ c.maxSize
      cases hfind : c.entries.find? (fun e => e.1 == k) with
      | none =>
          rw [MemoryCache.get_nofind c now k hfind]
          exact h
      | some e =>
          by_cases hexp : e.2.expiration < now
          · rw [MemoryCache.get_expired c now k e hfind hexp]
            exact h
          · rw [MemoryCache.get_live c now k e hfind hexp]
            have hq : e.1 = k := by simpa using List.find?_some hfind
            have hlt : (List.filter (fun e2 => e2.1 != k) c.entries).length < c.entries.length :=
              List.length_filter_lt_length_iff_exists.mpr
                ⟨e, List.mem_of_find?_eq_some hfind, by simp [hq]⟩
            simp only [eraseKey, List.length_cons]
            omega
  | opDelete k =>
      show (((c.delete k).entries.length : Int)) ≤ c.maxSize
      simp only [MemoryCache.delete, eraseKey]
      have := List.length_filter_le (fun e2 => e2.1 != k) c.entries
      omega
  | opClear =>
      show (((c.clear).entries.length : Int)) ≤ c.maxSize
      simp only [MemoryCache.clear, List.length_nil]
      exact hms

/-- The running invariant of a cache built by `NewMemoryCache` and driven
by an arbitrary operation sequence: the configuration fields are
preserved, the size stays within a nonnegative capacity, and the entry
list is LRU-ordered for the trace. -/
theorem runOps_good (ms ttl : Int) (hms : 0 ≤ ms) (ops : List CacheOp) :
    (runOps (NewMemoryCache ms ttl) ops).maxSize = ms ∧
    (runOps (NewMemoryCache ms ttl) ops).defaultTTL = ttl ∧
    ((runOps (NewMemoryCache ms ttl) ops).entries.length : Int) ≤ ms ∧
    goodList (NewMemoryCache ms ttl) ops (runOps (NewMemoryCache ms ttl) ops).entries := by
  induction ops using List.reverseRecOn with
  | nil =>
      refine ⟨rfl, rfl, by simpa using hms, ?_⟩
      exact ⟨fun e he => absurd he (List.not_mem_nil e), List.Pairwise.nil⟩
  | append_singleton ops op ih =>
      obtain ⟨hmax, httl2, hsize, hgood⟩ := ih
      rw [runOps_append]
      refine ⟨?_, ?_, ?_, ?_⟩
      · rw [(applyOp_fields _ op).1, hmax]
      · rw [(applyOp_fields _ op).2, httl2]
      · have hx := applyOp_size_le (runOps (NewMemoryCache ms ttl) ops) op
          (by rw [hmax]; exact hms) (by rw [hmax]; exact hsize)
        rw [hmax] at hx
        exact hx
      · cases op with
        | opClear =>
            exact ⟨fun e he => absurd he (List.not_mem_nil e), List.Pairwise.nil⟩
        | opDelete k =>
            exact goodList_untouched _ ops (.opDelete k) _ (fun e he => rfl)
              (goodList_sublist _ ops _ _ (List.filter_sublist _) hgood)
        | opSet k r ttl2 now2 =>
            cases hfind : (runOps (NewMemoryCache ms ttl) ops).entries.find?
                (fun x => x.1 == k) with
            | some e =>
                have hgoal : (applyOp (runOps (NewMemoryCache ms ttl) ops)
                      (.opSet k r ttl2 now2)).entries =
                    (k, ⟨r, now2 + (if ttl2 == 0 then
                        (runOps (NewMemoryCache ms ttl) ops).defaultTTL else ttl2)⟩) ::
                      eraseKey k (runOps (NewMemoryCache ms ttl) ops).entries := by
                  show (((runOps (NewMemoryCache ms ttl) ops).set now2 k r ttl2).entries = _)
                  rw [MemoryCache.set_found _ now2 k r ttl2 e hfind]
                rw [hgoal]
                apply goodList_cons_front
                · simp [touches]
                · intro e2 he2
                  have hne : e2.1 ≠ k := by
                    have hmf : e2 ∈ (runOps (NewMemoryCache ms ttl) ops).entries ∧ ¬e2.1 = k := by
                      simpa [eraseKey] using he2
                    exact hmf.2
                  have hbf : (k == e2.1) = false := beq_eq_false_iff_ne.mpr (Ne.symm hne)
                  simp [touches, hbf]
                · exact goodList_sublist _ ops _ _ (List.filter_sublist _) hgood
            | none =>
                have hgoal : (applyOp (runOps (NewMemoryCache ms ttl) ops)
                      (.opSet k r ttl2 now2)).entries =
                    evictIfNeeded (runOps (NewMemoryCache ms ttl) ops).maxSize
                      ((k, ⟨r, now2 + (if ttl2 == 0 then
                          (runOps (NewMemoryCache ms ttl) ops).defaultTTL else ttl2)⟩) ::
                        (runOps (NewMemoryCache ms ttl) ops).entries) := by
                  show (((runOps (NewMemoryCache ms ttl) ops).set now2 k r ttl2).entries = _)
                  rw [MemoryCache.set_fresh _ now2 k r ttl2 hfind]
                have hfull : goodList (NewMemoryCache ms ttl) (ops ++ [.opSet k r ttl2 now2])
                    ((k, ⟨r, now2 + (if ttl2 == 0 then
                        (runOps (NewMemoryCache ms ttl) ops).defaultTTL else ttl2)⟩) ::
                      (runOps (NewMemoryCache ms ttl) ops).entries) := by
                  apply goodList_cons_front
                  · simp [touches]
                  · intro e2 he2
                    have hne : e2.1 ≠ k := by
                      have hall := List.find?_eq_none.mp hfind e2 he2
                      simpa using hall
                    have hbf : (k == e2.1) = false := beq_eq_false_iff_ne.mpr (Ne.symm hne)
                    simp [touches, hbf]
                  · exact hgood
                rw [hgoal, evictIfNeeded_take _ (by rw [hmax]; exact hms)]
                exact goodList_sublist _ _ _ _ (List.take_sublist _ _) hfull
        | opGet k now2 =>
            cases hfind : (runOps (NewMemoryCache ms ttl) ops).entries.find?
                (fun x => x.1 == k) with
            | none =>
                have hst : applyOp (runOps (NewMemoryCache ms ttl) ops) (.opGet k now2) =
                    runOps (NewMemoryCache ms ttl) ops := by
                  show (((runOps (NewMemoryCache ms ttl) ops).get now2 k).2 = _)
                  rw [MemoryCache.get_nofind _ now2 k hfind]
                rw [hst]
                apply goodList_untouched _ ops (.opGet k now2) _ ?_ hgood
                intro e2 he2
                simp [touches, MemoryCache.get_nofind _ now2 k hfind]
            | some e =>
                by_cases hexp : e.2.expiration < now2
                · have hst : applyOp (runOps (NewMemoryCache ms ttl) ops) (.opGet k now2) =
                      runOps (NewMemoryCache ms ttl) ops := by
                    show (((runOps (NewMemoryCache ms ttl) ops).get now2 k).2 = _)
                    rw [MemoryCache.get_expired _ now2 k e hfind hexp]
                  rw [hst]
                  apply goodList_untouched _ ops (.opGet k now2) _ ?_ hgood
                  intro e2 he2
                  simp [touches, MemoryCache.get_expired _ now2 k e hfind hexp]
                · have hq : e.1 = k := by simpa using List.find?_some hfind
                  have hgoal : (applyOp (runOps (NewMemoryCache ms ttl) ops)
                        (.opGet k now2)).entries =
                      e :: eraseKey k (runOps (NewMemoryCache ms ttl) ops).entries := by
                    show ((((runOps (NewMemoryCache ms ttl) ops).get now2 k).2).entries = _)
                    rw [MemoryCache.get_live _ now2 k e hfind hexp]
                  rw [hgoal]
                  have hfront := goodList_cons_front (NewMemoryCache ms ttl) ops
                    (.opGet k now2) e.1 e.2
                    (eraseKey k (runOps (NewMemoryCache ms ttl) ops).entries)
                    (by simp [touches, hq, MemoryCache.get_live _ now2 k e hfind hexp])
                    (fun e2 he2 => by
                      have hne : e2.1 ≠ k := by
                        have hmf : e2 ∈ (runOps (NewMemoryCache ms ttl) ops).entries ∧ ¬e2.1 = k := by
                          simpa [eraseKey] using he2
                        exact hmf.2
                      have hbf : (k == e2.1) = false := beq_eq_false_iff_ne.mpr (Ne.symm hne)
                      simp [touches, hbf])
                    (goodList_sublist _ ops _ _ (List.filter_sublist _) hgood)
                  exact hfront

/-- Claim C1: for every sequence of `Set`, `Get`, `Delete` and `Clear`
operations on a `MemoryCache` constructed with a nonnegative capacity,
(i) after each operation `Size() ≤ maxSize`; (ii) the entry list is
always in strictly decreasing last-touch order, so the back of the list —
the end `evictIfNeeded` removes from — is the least-recently-used entry
still present, and strictness shows ties are impossible: an insertion is
itself a touch, hence among never-read entries the order is insertion
order and the oldest inserted one sits at the eviction end; (iii) a `Set`
of a new key produces a front segment (`take`) of the new entry followed
by the previous list, i.e. the entries removed on overflow are taken from
the least-recently-used end, repeatedly, until within bounds. -/
theorem c1_capacity_and_lru_eviction (ms ttl : Int) (hms : 0 ≤ ms) (ops : List CacheOp) :
    (runOps (NewMemoryCache ms ttl) ops).size ≤ ms ∧
    goodList (NewMemoryCache ms ttl) ops (runOps (NewMemoryCache ms ttl) ops).entries ∧
    (∀ (key : String) (r : FlagResult) (ttl2 now2 : Int),
      (runOps (NewMemoryCache ms ttl) ops).lookup key = none →
      ∃ n, ((runOps (NewMemoryCache ms ttl) ops).set now2 key r ttl2).entries =
        (((key, ⟨r, now2 + (if ttl2 == 0 then ttl else ttl2)⟩) : String × cacheItem) ::
          (runOps (NewMemoryCache ms ttl) ops).entries).take n) := by
  obtain ⟨hmax, httl2, hsize, hgood⟩ := runOps_good ms ttl hms ops
  refine ⟨hsize, hgood, ?_⟩
  intro key r ttl2 now2 hnone
  have hfind := lookup_none_find? _ key hnone
  rw [MemoryCache.set_fresh _ now2 key r ttl2 hfind, httl2,
    evictIfNeeded_take _ (by rw [hmax]; exact hms)]
  exact ⟨_, rfl⟩

/-- Witness for C1 on the concrete capacity-2 trace `c1ops`. -/
theorem c1_capacity_and_lru_eviction_witness :
    (runOps (NewMemoryCache 2 60) c1ops).size ≤ 2 ∧
    goodList (NewMemoryCache 2 60) c1ops (runOps (NewMemoryCache 2 60) c1ops).entries ∧
    (∀ (key : String) (r : FlagResult) (ttl2 now2 : Int),
      (runOps (NewMemoryCache 2 60) c1ops).lookup key = none →
      ∃ n, ((runOps (NewMemoryCache 2 60) c1ops).set now2 key r ttl2).entries =
        (((key, ⟨r, now2 + (if ttl2 == 0 then 60 else ttl2)⟩) : String × cacheItem) ::
          (runOps (NewMemoryCache 2 60) c1ops).entries).take n) :=
  c1_capacity_and_lru_eviction 2 60 (by decide) c1ops

end Variably
